import Mathlib

/-!
Verification of the embedding storage and similarity-retrieval subsystem of
the rdcontext repository (TypeScript), as a shallow embedding into Lean 4.

Modelling conventions, applied uniformly:

* A TypeScript `number[]` is a `List ℚ`.  IEEE-754 rounding is outside the
  scope of this development; the arithmetic claims at stake (lengths, guards,
  zero checks, branch selection, ordering) are about exact values, so the
  rationals are an adequate carrier.  `Math.sqrt` has no exact rational
  counterpart, so functions that call it take the square-root function as an
  explicit parameter `s : ℚ → ℚ`; the only fact about `Math.sqrt` any claim
  needs is `s 0 = 0`, which appears as an explicit hypothesis where used.
* A function that can `throw` is translated to `Except String _`, carrying
  the thrown message.
* JavaScript `Array.prototype.slice(0, n)` is `List.take n` (both clamp at
  the array length).
* The in-place fill-then-copy loops of the source are translated to
  `(List.range n).map`-style comprehensions over the same index ranges.
-/

/-- The embedding provider union type `EmbeddingProvider = 'openai' | 'gemini'`
from `src/db/schema-v2.ts`. -/
inductive Provider where
  | gemini
  | openai
deriving DecidableEq, Repr

namespace EmbeddingNormalizer

/-- Model of `EmbeddingNormalizer.normalizeGemini` (src/ai/embedding-utils.ts, lines
19–36): a 3072-wide vector is returned as-is; a 768-wide vector is copied
into a fresh 3072-slot zero array (`new Array(3072).fill(0)` followed by a
copy of the first 768 entries, rendered here as a map over the index range
with out-of-range reads defaulting to the fill value 0); anything else
throws. -/
def normalizeGemini (embedding : List ℚ) : Except String (List ℚ) :=
  if embedding.length = 3072 then
    .ok embedding
  else if embedding.length = 768 then
    .ok ((List.range 3072).map fun i => embedding.getD i 0)
  else
    .error ("Invalid Gemini embedding dimensions: expected 768 or 3072, got "
      ++ toString embedding.length)

/-- Model of `EmbeddingNormalizer.normalizeOpenAI` (src/ai/embedding-utils.ts, lines
39–57).  Note the source's `embedding.slice(0, 3072)`: JavaScript `slice`
clamps at the array length, which is `List.take 3072` here.  The third
branch of the source repeats the `length === 3072` test and is dead; it is
kept to mirror the source. -/
def normalizeOpenAI (embedding : List ℚ) : Except String (List ℚ) :=
  if embedding.length = 3072 then
    .ok embedding
  else if embedding.length = 1536 then
    .ok (embedding.take 3072)
  else if embedding.length = 3072 then
    .ok (embedding.take 3072)
  else
    .error ("Unsupported OpenAI embedding dimensions: " ++ toString embedding.length)

/-- Model of `EmbeddingNormalizer.normalize` (src/ai/embedding-utils.ts, lines 7–16):
dispatch on the provider.  The `default` throw of the source is unreachable
for the closed union type and has no counterpart here. -/
def normalize (embedding : List ℚ) (provider : Provider) : Except String (List ℚ) :=
  match provider with
  | .gemini => normalizeGemini embedding
  | .openai => normalizeOpenAI embedding

end EmbeddingNormalizer

namespace VectorStore

/-- Model of `VectorStore.normalizeEmbedding` (vector-store module, lines 509–531):
a separate, duplicated implementation of normalization.  It handles
`gemini`/3072 (as-is), `gemini`/768 (zero-pad via fill-and-copy), and
`openai`/1536 (`slice(0, 3072)`, i.e. `take 3072`); every other
provider/width combination — including `openai`/3072 — falls through to
the throw. -/
def normalizeEmbedding (embedding : List ℚ) (provider : Provider) : Except String (List ℚ) :=
  if provider = .gemini ∧ embedding.length = 3072 then
    .ok embedding
  else if provider = .gemini ∧ embedding.length = 768 then
    .ok ((List.range 3072).map fun i => embedding.getD i 0)
  else if provider = .openai ∧ embedding.length = 1536 then
    .ok (embedding.take 3072)
  else
    .error ("Unsupported embedding: " ++
      (match provider with | .gemini => "gemini" | .openai => "openai") ++
      " with " ++ toString embedding.length ++ " dimensions")

end VectorStore

set_option maxRecDepth 8000

/-- Zero-padding characterisation of the fill-and-copy loop: reading the
first 3072 positions of a 768-element list with default 0 yields the list
followed by 2304 zeros. -/
theorem range_map_getD_pad (e : List ℚ) (he : e.length = 768) :
    (List.range 3072).map (fun i => e.getD i 0) = e ++ List.replicate 2304 0 := by
  have h : (3072 : ℕ) = 768 + 2304 := by norm_num
  rw [h, List.range_add, List.map_append, List.map_map]
  congr 1
  · apply List.ext_getElem
    · simp [he]
    · intro i h1 h2
      have hi : i < e.length := by simpa [he] using h2
      simp [List.getD, List.getElem?_eq_getElem hi]
  · have : ∀ j ∈ List.range 2304, ((fun i => e.getD i 0) ∘ (fun j => 768 + j)) j = (0 : ℚ) := by
      intro j _
      have : e.length ≤ 768 + j := by omega
      simp [List.getD, List.getElem?_eq_none this]
    rw [List.map_congr_left this]
    simp [List.map_const']

/-- One element of the batch argument of `VectorStore.storeVectors`:
`{ snippetId, embedding, provider }`. -/
structure VecRecord where
  snippetId : Nat
  embedding : List ℚ
  provider : Provider
deriving DecidableEq, Repr

/-- One row of the `snippets_vec_fallback` table: `snippet_id` plus the
stored embedding buffer (modelled as the list of its float entries). -/
structure FallbackRow where
  snippet_id : Nat
  embedding : List ℚ
deriving DecidableEq, Repr

/-- Database effects performed by the vector store, in program order.  Used
to state ordering claims (what ran, and in which sequence). -/
inductive VecEvent where
  | vecDelete (ids : List Nat)
  | vecInsert (rows : List FallbackRow)
deriving DecidableEq, Repr

/-- Model of `Array.prototype.map` with a callback that can throw: the map stops at
the first exception, which propagates; earlier results are discarded. -/
def mapExcept (f : α → Except String β) : List α → Except String (List β)
  | [] => .ok []
  | x :: xs => do
    let y ← f x
    let ys ← mapExcept f xs
    .ok (y :: ys)

/-- The sub-batch chunking of the loop
`for (let i = 0; i < l.length; i += n) l.slice(i, i + n)`. -/
def chunksOf (n : Nat) : List α → List (List α)
  | [] => []
  | x :: xs => (x :: xs.take (n - 1)) :: chunksOf n (xs.drop (n - 1))
termination_by l => l.length
decreasing_by
  simp only [List.length_drop, List.length_cons]
  omega

namespace VectorStore

/-- Model of `VectorStore.storeVectors` (vector-store module, lines 584–608).
Returns the sequence of database effects it performs, together with the
resulting contents of the fallback table (or the propagated exception).
Effect order mirrors the source: for a non-empty batch it first deletes
every row whose `snippet_id` appears in the batch, then maps
`normalizeEmbedding` over the whole batch (the first normalization error
propagates, after the delete but before any insert), then inserts the
normalized rows in sub-batches of `BATCH_SIZE = 50`. -/
def storeVectors (vectors : List VecRecord) (db : List FallbackRow) :
    List VecEvent × Except String (List FallbackRow) :=
  if vectors = [] then ([], .ok db)
  else
    let snippetIds := vectors.map (·.snippetId)
    let db1 := db.filter fun r => ¬ r.snippet_id ∈ snippetIds
    match mapExcept
        (fun v => (normalizeEmbedding v.embedding v.provider).map
          fun e => FallbackRow.mk v.snippetId e) vectors with
    | .error e => ([VecEvent.vecDelete snippetIds], .error e)
    | .ok normalizedVectors =>
        (VecEvent.vecDelete snippetIds
           :: (chunksOf 50 normalizedVectors).map VecEvent.vecInsert,
         .ok ((chunksOf 50 normalizedVectors).foldl (fun acc batch => acc ++ batch) db1))

end VectorStore

/-- Inserting the sub-batches one after another inserts exactly the original
list: folding append over `chunksOf n l` appends `l`. -/
theorem chunksOf_foldl_append (n : Nat) (l acc : List α) :
    (chunksOf n l).foldl (fun a b => a ++ b) acc = acc ++ l := by
  match l with
  | [] => simp [chunksOf]
  | x :: xs =>
    rw [chunksOf]
    simp only [List.foldl_cons]
    rw [chunksOf_foldl_append n (xs.drop (n - 1))]
    simp [List.append_assoc]
termination_by l.length
decreasing_by
  simp only [List.length_drop, List.length_cons]
  omega

/-- Every sub-batch produced by the chunking has at most `n` records. -/
theorem chunksOf_length_le (n : Nat) (hn : 1 ≤ n) (l : List α) :
    ∀ c ∈ chunksOf n l, c.length ≤ n := by
  match l with
  | [] => simp [chunksOf]
  | x :: xs =>
    rw [chunksOf]
    intro c hc
    rcases List.mem_cons.mp hc with h | h
    · subst h
      simp only [List.length_cons, List.length_take]
      omega
    · exact chunksOf_length_le n hn (xs.drop (n - 1)) c h
termination_by l.length
decreasing_by
  simp only [List.length_drop, List.length_cons]
  omega

/-- Every sub-batch except possibly the last has exactly `n` records. -/
theorem chunksOf_dropLast_length (n : Nat) (hn : 1 ≤ n) (l : List α) :
    ∀ c ∈ (chunksOf n l).dropLast, c.length = n := by
  match l with
  | [] => simp [chunksOf]
  | x :: xs =>
    rw [chunksOf]
    intro c hc
    rcases hrest : chunksOf n (xs.drop (n - 1)) with _ | ⟨r, rs⟩
    · rw [hrest] at hc
      simp at hc
    · rw [hrest] at hc
      rw [List.dropLast_cons_of_ne_nil (by simp)] at hc
      rcases List.mem_cons.mp hc with h | h
      · subst h
        have hne : xs.drop (n - 1) ≠ [] := by
          intro hnil
          rw [hnil] at hrest
          simp [chunksOf] at hrest
        have hlen : n - 1 < xs.length := by
          by_contra hge
          exact hne (List.drop_eq_nil_of_le (by omega))
        simp only [List.length_cons, List.length_take]
        omega
      · have := chunksOf_dropLast_length n hn (xs.drop (n - 1))
        rw [hrest] at this
        exact this c h
termination_by l.length
decreasing_by
  simp only [List.length_drop, List.length_cons]
  omega

/-- When every element maps successfully, `mapExcept` succeeds and preserves
length, mapping each element in place. -/
theorem mapExcept_ok (f : α → Except String β) (l : List α)
    (h : ∀ x ∈ l, ∃ y, f x = .ok y) :
    ∃ l', mapExcept f l = .ok l' ∧ l'.length = l.length := by
  induction l with
  | nil => exact ⟨[], rfl, rfl⟩
  | cons x xs ih =>
    obtain ⟨y, hy⟩ := h x (by simp)
    obtain ⟨ys, hys, hlen⟩ := ih fun a ha => h a (by simp [ha])
    refine ⟨y :: ys, ?_, by simp [hlen]⟩
    rw [mapExcept, hy, hys]
    rfl

/-- When some element fails to map, `mapExcept` fails. -/
theorem mapExcept_error (f : α → Except String β) (l : List α) (x : α)
    (hx : x ∈ l) (e : String) (he : f x = .error e) :
    ∃ err, mapExcept f l = .error err := by
  induction l with
  | nil => simp at hx
  | cons a as ih =>
    rcases List.mem_cons.mp hx with h | h
    · subst h
      exact ⟨e, by rw [mapExcept, he]; rfl⟩
    · rcases ha : f a with e' | y
      · exact ⟨e', by rw [mapExcept, ha]; rfl⟩
      · obtain ⟨err, herr⟩ := ih h
        exact ⟨err, by rw [mapExcept, ha, herr]; rfl⟩

/-- The per-candidate similarity computation of
`VectorStore.fallbackSimilaritySearch` (vector-store module, lines 649–671):
dot product and both squared magnitudes are accumulated over
`i < Math.min(queryVector.length, embedding.length)` only, i.e. over the
overlapping prefix of the two vectors.  `s` models `Math.sqrt`. -/
def overlapLen (queryVector emb : List ℚ) : Nat :=
  min queryVector.length emb.length

/-- The accumulated `dotProduct` of the candidate loop. -/
def overlapDot (queryVector emb : List ℚ) : ℚ :=
  ((List.range (overlapLen queryVector emb)).map
    fun i => queryVector.getD i 0 * emb.getD i 0).sum

/-- The accumulated `queryMagnitude` (sum of squares, before `Math.sqrt`). -/
def overlapSqQuery (queryVector emb : List ℚ) : ℚ :=
  ((List.range (overlapLen queryVector emb)).map
    fun i => queryVector.getD i 0 * queryVector.getD i 0).sum

/-- The accumulated `embeddingMagnitude` (sum of squares, before `Math.sqrt`). -/
def overlapSqEmb (queryVector emb : List ℚ) : ℚ :=
  ((List.range (overlapLen queryVector emb)).map
    fun i => emb.getD i 0 * emb.getD i 0).sum

/-- Model of `const similarity = magnitude > 0 ? dotProduct / magnitude : 0` where
`magnitude = Math.sqrt(queryMagnitude) * Math.sqrt(embeddingMagnitude)`. -/
def similarityOf (s : ℚ → ℚ) (queryVector emb : List ℚ) : ℚ :=
  let magnitude := s (overlapSqQuery queryVector emb) * s (overlapSqEmb queryVector emb)
  if magnitude > 0 then overlapDot queryVector emb / magnitude else 0

namespace VectorStore

/-- Model of `VectorStore.fallbackSimilaritySearch` (vector-store module, lines
626–677), with the candidate row set (already restricted by the optional
library filter) passed in as `rows`: map every row to
`a snippet-id/distance pair with distance one minus similarity`, sort ascending by distance, take
the first `limit`.  The JavaScript comparator
`(a, b) => a.distance - b.distance` sorts by non-decreasing distance;
insertion sort realises the same ordering contract here. -/
def fallbackSimilaritySearch (s : ℚ → ℚ) (queryVector : List ℚ) (limit : Nat)
    (rows : List FallbackRow) : List (Nat × ℚ) :=
  let similarities := rows.map fun row =>
    (row.snippet_id, 1 - similarityOf s queryVector row.embedding)
  (List.insertionSort (fun a b => a.2 ≤ b.2) similarities).take limit

/-- Model of `VectorStore.similaritySearch` (vector-store module, lines 611–623):
normalize the query for its provider, then run the fallback scan. -/
def similaritySearch (s : ℚ → ℚ) (queryEmbedding : List ℚ) (provider : Provider)
    (limit : Nat) (rows : List FallbackRow) : Except String (List (Nat × ℚ)) :=
  (normalizeEmbedding queryEmbedding provider).map
    fun normalized => fallbackSimilaritySearch s normalized limit rows

end VectorStore

namespace EmbeddingNormalizer

/-- Model of `EmbeddingNormalizer.cosineSimilarity` (src/ai/embedding-utils.ts, lines
94–117): throws on a length mismatch; otherwise accumulates the dot product
and the two squared magnitudes over the full (common) length, takes square
roots (`s` models `Math.sqrt`), and returns 0 when either root is 0, else
the quotient. -/
def cosineSimilarity (s : ℚ → ℚ) (a b : List ℚ) : Except String ℚ :=
  if a.length ≠ b.length then
    .error ("Dimension mismatch: " ++ toString a.length ++ " vs " ++ toString b.length)
  else
    let dotProduct := ((List.range a.length).map fun i => a.getD i 0 * b.getD i 0).sum
    let magnitudeA := s (((List.range a.length).map fun i => a.getD i 0 * a.getD i 0).sum)
    let magnitudeB := s (((List.range a.length).map fun i => b.getD i 0 * b.getD i 0).sum)
    if magnitudeA = 0 ∨ magnitudeB = 0 then .ok 0
    else .ok (dotProduct / (magnitudeA * magnitudeB))

end EmbeddingNormalizer

/-- The `embed` function (src/ai/embed.ts, lines 7–38), with the external
provider endpoints abstracted as the oracle `providerResult` and the list of
endpoints actually invoked returned alongside the result: an input whose
trimmed form is empty throws `"Input cannot be empty"` immediately, before
either endpoint is called; otherwise exactly the current provider's endpoint
is called once, and the result is optionally normalized.  The source guard
`!input?.trim()` is truthy exactly when the trimmed string is empty, i.e.
when every character of the input is whitespace (`trim` only removes
leading and trailing whitespace); the guard is modelled in that form. -/
def embed (input : String) (normalize : Bool) (provider : Provider)
    (providerResult : Provider → List ℚ) :
    Except String (List ℚ) × List Provider :=
  if input.data.all Char.isWhitespace then
    (.error ("Input cannot be empty"), [])
  else
    let embedding := providerResult provider
    if normalize then
      (EmbeddingNormalizer.normalize embedding provider, [provider])
    else
      (.ok embedding, [provider])

/-- Snippet metadata as inserted by `SnippetStoreV2.insertSnippets`
(everything except the embedding). -/
structure SnippetMeta where
  library : String
  path : String
  title : String
  description : String
  language : Option String
  code : String
deriving DecidableEq, Repr, Inhabited

/-- Database effects performed by `SnippetStoreV2.insertSnippets`, in
program order. -/
inductive DbEvent where
  | txBegin
  | metaInsert (meta : SnippetMeta) (provider : Provider) (embeddingDims : Nat)
      (assignedId : Nat)
  | txCommit
  | vec (e : VecEvent)
deriving DecidableEq, Repr

/-- Model of `SnippetStoreV2.insertSnippets` (snippet-store module, lines 238–283).
An empty batch returns `[]` at once.  Otherwise every metadata row is
inserted inside a single transaction (opened with `behavior: 'deferred'`;
the deferred flag only affects lock timing and has no logical counterpart
here), the auto-increment ids `nextId, nextId+1, ...` are captured in input
order, and only after the transaction commits is
`VectorStore.storeVectors` invoked on the `{snippetId, embedding, provider}`
tuples.  An exception from the vector store propagates. -/
def insertSnippets (snippets : List (SnippetMeta × List ℚ)) (provider : Provider)
    (nextId : Nat) (db : List FallbackRow) :
    List DbEvent × Except String (List Nat) :=
  if snippets = [] then ([], .ok [])
  else
    let ids := List.range' nextId snippets.length
    let metaEvents := (snippets.zip ids).map fun p =>
      DbEvent.metaInsert p.1.1 provider p.1.2.length p.2
    let vectorOperations := (snippets.zip ids).map fun p =>
      VecRecord.mk p.2 p.1.2 provider
    let stored := VectorStore.storeVectors vectorOperations db
    (DbEvent.txBegin :: metaEvents ++ DbEvent.txCommit :: stored.1.map DbEvent.vec,
     stored.2.map fun _ => ids)

/-! ## Claim theorems -/

/-- C1 (refuting evaluation): the claim says every supported provider/width
pair normalizes to length exactly 3072 in both implementations.  At
provider `openai` with input width 1536, `slice(0, 3072)` clamps at the
array length, so both implementations return a vector of length 1536, and
`VectorStore.normalizeEmbedding` rejects the supported pair
`openai`/3072 outright. -/
theorem normalize_openai_1536_stays_1536 :
    (EmbeddingNormalizer.normalize (List.replicate 1536 (1 : ℚ)) .openai).map List.length
      = .ok 1536 ∧
    (VectorStore.normalizeEmbedding (List.replicate 1536 (1 : ℚ)) .openai).map List.length
      = .ok 1536 ∧
    ∃ e, VectorStore.normalizeEmbedding (List.replicate 3072 (1 : ℚ)) .openai = .error e := by
  have hl : (List.replicate 1536 (1 : ℚ)).length = 1536 := List.length_replicate 1536 1
  have hl3 : (List.replicate 3072 (1 : ℚ)).length = 3072 := List.length_replicate 3072 1
  refine ⟨?_, ?_, ?_⟩
  · rw [EmbeddingNormalizer.normalize, EmbeddingNormalizer.normalizeOpenAI,
      if_neg (by rw [hl]; omega), if_pos hl,
      List.take_of_length_le (le_of_eq_of_le hl (by omega))]
    exact congrArg Except.ok hl
  · rw [VectorStore.normalizeEmbedding,
      if_neg (by rw [hl]; rintro ⟨h, -⟩; cases h), if_neg (by rw [hl]; rintro ⟨h, -⟩; cases h),
      if_pos ⟨rfl, hl⟩,
      List.take_of_length_le (le_of_eq_of_le hl (by omega))]
    exact congrArg Except.ok hl
  · cases h : VectorStore.normalizeEmbedding (List.replicate 3072 (1 : ℚ)) .openai with
    | error e => exact ⟨e, rfl⟩
    | ok l =>
      rw [VectorStore.normalizeEmbedding,
        if_neg (by rintro ⟨h, -⟩; cases h), if_neg (by rintro ⟨h, -⟩; cases h),
        if_neg (by rw [hl3]; rintro ⟨-, h⟩; omega)] at h
      cases h

/-- C3 (refuting evaluation): the claim says a 3072-wide vector is returned
unchanged for every provider in both implementations.  That holds in
`EmbeddingNormalizer.normalize` for both providers and in
`VectorStore.normalizeEmbedding` for `gemini`, but
`VectorStore.normalizeEmbedding` has no `openai`/3072 branch and throws. -/
theorem normalizeEmbedding_openai_3072_not_idempotent :
    EmbeddingNormalizer.normalize (List.replicate 3072 (1 : ℚ)) .gemini
      = .ok (List.replicate 3072 (1 : ℚ)) ∧
    EmbeddingNormalizer.normalize (List.replicate 3072 (1 : ℚ)) .openai
      = .ok (List.replicate 3072 (1 : ℚ)) ∧
    VectorStore.normalizeEmbedding (List.replicate 3072 (1 : ℚ)) .gemini
      = .ok (List.replicate 3072 (1 : ℚ)) ∧
    ∃ e, VectorStore.normalizeEmbedding (List.replicate 3072 (1 : ℚ)) .openai = .error e := by
  have hl3 : (List.replicate 3072 (1 : ℚ)).length = 3072 := List.length_replicate 3072 1
  refine ⟨?_, ?_, ?_, ?_⟩
  · rw [EmbeddingNormalizer.normalize, EmbeddingNormalizer.normalizeGemini, if_pos hl3]
  · rw [EmbeddingNormalizer.normalize, EmbeddingNormalizer.normalizeOpenAI, if_pos hl3]
  · rw [VectorStore.normalizeEmbedding, if_pos ⟨rfl, hl3⟩]
  · cases h : VectorStore.normalizeEmbedding (List.replicate 3072 (1 : ℚ)) .openai with
    | error e => exact ⟨e, rfl⟩
    | ok l =>
      rw [VectorStore.normalizeEmbedding,
        if_neg (by rintro ⟨h, -⟩; cases h), if_neg (by rintro ⟨h, -⟩; cases h),
        if_neg (by rw [hl3]; rintro ⟨-, h⟩; omega)] at h
      cases h

/-- C7: normalizing a 768-wide vector with provider `gemini` yields, in both
implementations, exactly the input followed by 2304 zeros — a 3072-wide
vector whose first 768 entries are the input values in order and whose
remaining entries are 0. -/
theorem normalize_gemini_768_zero_pads (e : List ℚ) (he : e.length = 768) :
    EmbeddingNormalizer.normalize e .gemini = .ok (e ++ List.replicate 2304 0) ∧
    VectorStore.normalizeEmbedding e .gemini = .ok (e ++ List.replicate 2304 0) ∧
    (e ++ List.replicate 2304 (0 : ℚ)).length = 3072 := by
  refine ⟨?_, ?_, by rw [List.length_append, he, List.length_replicate]⟩
  · rw [EmbeddingNormalizer.normalize, EmbeddingNormalizer.normalizeGemini]
    rw [if_neg (by omega), if_pos he, range_map_getD_pad e he]
  · rw [VectorStore.normalizeEmbedding]
    rw [if_neg (by rw [he]; rintro ⟨-, h⟩; omega), if_pos ⟨rfl, he⟩, range_map_getD_pad e he]

/-- Witness for C7 at the concrete input of 768 ones. -/
theorem normalize_gemini_768_zero_pads_witness :
    (List.replicate 768 (1 : ℚ)).length = 768 ∧
    (EmbeddingNormalizer.normalize (List.replicate 768 (1 : ℚ)) .gemini
      = .ok (List.replicate 768 (1 : ℚ) ++ List.replicate 2304 0) ∧
    VectorStore.normalizeEmbedding (List.replicate 768 (1 : ℚ)) .gemini
      = .ok (List.replicate 768 (1 : ℚ) ++ List.replicate 2304 0) ∧
    (List.replicate 768 (1 : ℚ) ++ List.replicate 2304 (0 : ℚ)).length = 3072) :=
  ⟨List.length_replicate 768 1,
   normalize_gemini_768_zero_pads (List.replicate 768 (1 : ℚ)) (List.length_replicate 768 1)⟩

/-- Sum of squared entries of an all-zero read: if every entry of `l` is 0,
the accumulated sum of products of its reads is 0. -/
theorem range_map_getD_sq_zero (l : List ℚ) (n : Nat)
    (hz : ∀ x ∈ l, x = 0) (g : ℚ → ℚ) :
    ((List.range n).map fun i => l.getD i 0 * g (l.getD i 0)).sum = 0 := by
  have h : ∀ i ∈ List.range n, l.getD i 0 * g (l.getD i 0) = (0 : ℚ) := by
    intro i _
    have hd : l.getD i 0 = 0 := by
      by_cases hi : i < l.length
      · have : l.getD i 0 = l.get ⟨i, hi⟩ := by
          simp [List.getD, List.getElem?_eq_getElem hi]
        rw [this]
        exact hz _ (List.get_mem l i hi)
      · have hge : l.length ≤ i := Nat.le_of_not_lt hi
        simp [List.getD, List.getElem?_eq_none hge]
    rw [hd, zero_mul]
  rw [List.map_congr_left h, List.map_const']
  simp

/-- C8: `cosineSimilarity` fails exactly on a length mismatch; on matching
lengths it always returns a value (never an error, never a division by a
zero divisor), and an all-zero vector on either side yields exactly 0.  The
hypothesis `s 0 = 0` is the single fact used about `Math.sqrt`. -/
theorem cosineSimilarity_mismatch_and_zero (s : ℚ → ℚ) (a b : List ℚ) (h0 : s 0 = 0) :
    ((∃ e, EmbeddingNormalizer.cosineSimilarity s a b = .error e) ↔ a.length ≠ b.length) ∧
    (a.length = b.length → ∃ r, EmbeddingNormalizer.cosineSimilarity s a b = .ok r) ∧
    (a.length = b.length → (∀ x ∈ a, x = 0) →
      EmbeddingNormalizer.cosineSimilarity s a b = .ok 0) ∧
    (a.length = b.length → (∀ x ∈ b, x = 0) →
      EmbeddingNormalizer.cosineSimilarity s a b = .ok 0) := by
  by_cases hlen : a.length = b.length
  · have hok : ∃ r, EmbeddingNormalizer.cosineSimilarity s a b = .ok r := by
      rw [EmbeddingNormalizer.cosineSimilarity, if_neg (fun hne => hne hlen)]
      dsimp only
      split
      · exact ⟨0, rfl⟩
      · exact ⟨_, rfl⟩
    refine ⟨⟨?_, fun hne => absurd hlen hne⟩, fun _ => hok, fun _ hz => ?_, fun _ hz => ?_⟩
    · rintro ⟨e, he⟩
      obtain ⟨r, hr⟩ := hok
      rw [hr] at he
      cases he
    · have hsq : ((List.range a.length).map fun i => a.getD i 0 * a.getD i 0).sum = (0 : ℚ) :=
        range_map_getD_sq_zero a a.length hz id
      rw [EmbeddingNormalizer.cosineSimilarity, if_neg (fun hne => hne hlen)]
      dsimp only
      rw [hsq, h0, if_pos (Or.inl rfl)]
    · have hsq : ((List.range a.length).map fun i => b.getD i 0 * b.getD i 0).sum = (0 : ℚ) :=
        range_map_getD_sq_zero b a.length hz id
      rw [EmbeddingNormalizer.cosineSimilarity, if_neg (fun hne => hne hlen)]
      dsimp only
      rw [hsq, h0, if_pos (Or.inr rfl)]
  · refine ⟨⟨fun _ => hlen, fun _ => ?_⟩,
      fun h => absurd h hlen, fun h => absurd h hlen, fun h => absurd h hlen⟩
    exact ⟨_, by rw [EmbeddingNormalizer.cosineSimilarity, if_pos hlen]⟩

/-- Witness for C8 on two concrete zero vectors: the result is exactly 0. -/
theorem cosineSimilarity_mismatch_and_zero_witness :
    (id (0 : ℚ) = 0) ∧
    EmbeddingNormalizer.cosineSimilarity id [0, 0] [0, 0] = .ok 0 :=
  ⟨rfl, (cosineSimilarity_mismatch_and_zero id [0, 0] [0, 0] rfl).2.2.1 rfl (by decide)⟩

/-- C9: an input that is empty or consists only of whitespace makes `embed`
fail with the empty-input error and make no provider call at all — the
returned call list is empty, for either provider, with or without
normalization. -/
theorem embed_blank_input_fails_before_call (input : String) (nrm : Bool)
    (provider : Provider) (providerResult : Provider → List ℚ)
    (h : input.data.all Char.isWhitespace = true) :
    embed input nrm provider providerResult = (.error ("Input cannot be empty"), []) := by
  rw [embed, if_pos h]

/-- Witness for C9 at a concrete whitespace-only input. -/
theorem embed_blank_input_fails_before_call_witness :
    ("  \t ".data.all Char.isWhitespace = true) ∧
    embed ("  \t ") true .gemini (fun _ => [1, 2]) = (.error ("Input cannot be empty"), []) :=
  ⟨by decide, embed_blank_input_fails_before_call ("  \t ") true .gemini (fun _ => [1, 2])
    (by decide)⟩

/-- C2 (counterexample): in a two-record batch whose second record has an
unsupported width, `storeVectors` does not catch the normalization error
and does not insert the valid first record: the whole call fails after the
initial delete, with no insert event at all.  (The claim says the bad
record is excluded and the rest of the batch is still inserted.) -/
theorem storeVectors_bad_record_aborts_batch :
    (VectorStore.storeVectors
        [⟨1, List.replicate 768 (1 : ℚ), .gemini⟩, ⟨2, [1, 1, 1, 1, 1], .gemini⟩] []).1
      = [VecEvent.vecDelete [1, 2]] ∧
    (VectorStore.storeVectors
        [⟨1, List.replicate 768 (1 : ℚ), .gemini⟩, ⟨2, [1, 1, 1, 1, 1], .gemini⟩] []).2
      = .error ("Unsupported embedding: gemini with 5 dimensions") := by
  constructor <;> rfl

/-- C2 (amended): a normalization error for any record of a `storeVectors`
batch propagates out of the call: the only effect performed is the initial
delete of the batch's snippet ids — no record is inserted, not even the
ones that normalize fine.  (The catch-log-drop tolerance the claim
describes lives upstream, in the ingestion pipeline's embedding phase, not
in `storeVectors`.) -/
theorem storeVectors_normalization_error_propagates (vectors : List VecRecord)
    (db : List FallbackRow) (v : VecRecord) (hv : v ∈ vectors) (e : String)
    (he : VectorStore.normalizeEmbedding v.embedding v.provider = .error e) :
    (VectorStore.storeVectors vectors db).1
      = [VecEvent.vecDelete (vectors.map (·.snippetId))] ∧
    ∃ err, (VectorStore.storeVectors vectors db).2 = .error err := by
  obtain ⟨err, herr⟩ := mapExcept_error
    (fun v => (VectorStore.normalizeEmbedding v.embedding v.provider).map
      fun e => FallbackRow.mk v.snippetId e)
    vectors v hv e (by dsimp only; rw [he]; rfl)
  rw [VectorStore.storeVectors, if_neg (List.ne_nil_of_mem hv)]
  rw [herr]
  exact ⟨rfl, err, rfl⟩

/-- Witness for C2's amended theorem at a one-record batch with width 5. -/
theorem storeVectors_normalization_error_propagates_witness :
    ((⟨7, [1, 1, 1, 1, 1], .gemini⟩ : VecRecord) ∈
        [(⟨7, [1, 1, 1, 1, 1], .gemini⟩ : VecRecord)] ∧
      VectorStore.normalizeEmbedding [1, 1, 1, 1, 1] .gemini
        = .error ("Unsupported embedding: gemini with 5 dimensions")) ∧
    (VectorStore.storeVectors [⟨7, [1, 1, 1, 1, 1], .gemini⟩] [⟨9, [2]⟩]).1
      = [VecEvent.vecDelete [7]] ∧
    ∃ err, (VectorStore.storeVectors [⟨7, [1, 1, 1, 1, 1], .gemini⟩] [⟨9, [2]⟩]).2
      = .error err :=
  ⟨⟨by decide, rfl⟩,
    storeVectors_normalization_error_propagates
      [⟨7, [1, 1, 1, 1, 1], .gemini⟩] [⟨9, [2]⟩] ⟨7, [1, 1, 1, 1, 1], .gemini⟩
      (by decide) ("Unsupported embedding: gemini with 5 dimensions") rfl⟩

/-- C6: when every record of the batch normalizes, `storeVectors` succeeds
and the resulting table is exactly the old table minus the batch's snippet
ids, followed by one new row per input record — `vectors.length` new rows,
no more, no fewer; the rows are written in sub-batches of at most 50, every
sub-batch before the last holding exactly 50, and the concatenation of the
sub-batches being exactly the full normalized batch. -/
theorem storeVectors_batch_of_n_persists_n (vectors : List VecRecord)
    (db : List FallbackRow)
    (h : ∀ v ∈ vectors, ∃ nv, VectorStore.normalizeEmbedding v.embedding v.provider = .ok nv) :
    ∃ rows : List FallbackRow,
      (VectorStore.storeVectors vectors db).2
        = .ok ((db.filter fun r => ¬ r.snippet_id ∈ vectors.map (·.snippetId)) ++ rows) ∧
      rows.length = vectors.length ∧
      (∀ c ∈ chunksOf 50 rows, c.length ≤ 50) ∧
      (∀ c ∈ (chunksOf 50 rows).dropLast, c.length = 50) ∧
      (chunksOf 50 rows).foldl (fun a b => a ++ b) [] = rows := by
  by_cases hne : vectors = []
  · subst hne
    refine ⟨[], ?_, rfl, by simp [chunksOf], by simp [chunksOf],
      chunksOf_foldl_append 50 [] []⟩
    rw [VectorStore.storeVectors, if_pos rfl]
    simp
  · obtain ⟨rows, hrows, hlen⟩ := mapExcept_ok
      (fun v => (VectorStore.normalizeEmbedding v.embedding v.provider).map
        fun e => FallbackRow.mk v.snippetId e)
      vectors
      (by
        intro x hx
        obtain ⟨nv, hnv⟩ := h x hx
        exact ⟨FallbackRow.mk x.snippetId nv, by dsimp only; rw [hnv]; rfl⟩)
    refine ⟨rows, ?_, hlen,
      chunksOf_length_le 50 (by omega) rows,
      chunksOf_dropLast_length 50 (by omega) rows,
      chunksOf_foldl_append 50 rows []⟩
    rw [VectorStore.storeVectors, if_neg hne, hrows]
    exact congrArg Except.ok (chunksOf_foldl_append 50 rows _)

/-- Witness for C6: a batch of 120 records yields exactly 120 persisted
rows. -/
theorem storeVectors_batch_of_n_persists_n_witness :
    (∀ v ∈ List.replicate 120 (⟨0, List.replicate 3072 (1 : ℚ), .gemini⟩ : VecRecord),
      ∃ nv, VectorStore.normalizeEmbedding v.embedding v.provider = .ok nv) ∧
    ∃ rows : List FallbackRow,
      (VectorStore.storeVectors
          (List.replicate 120 ⟨0, List.replicate 3072 (1 : ℚ), .gemini⟩) []).2
        = .ok rows ∧
      rows.length = 120 := by
  have hall : ∀ v ∈ List.replicate 120 (⟨0, List.replicate 3072 (1 : ℚ), .gemini⟩ : VecRecord),
      ∃ nv, VectorStore.normalizeEmbedding v.embedding v.provider = .ok nv := by
    intro v hv
    rw [List.eq_of_mem_replicate hv]
    exact ⟨List.replicate 3072 (1 : ℚ), by
      rw [VectorStore.normalizeEmbedding, if_pos ⟨rfl, List.length_replicate 3072 1⟩]⟩
  obtain ⟨rows, h1, h2, -, -, -⟩ := storeVectors_batch_of_n_persists_n
    (List.replicate 120 ⟨0, List.replicate 3072 (1 : ℚ), .gemini⟩) [] hall
  exact ⟨hall, rows, h1, h2.trans (List.length_replicate 120 _)⟩

/-- C4: for a non-empty batch, the effect trace of `insertSnippets` is
exactly a transaction begin, one metadata insert per input record in input
order (record `i` paired with the generated id `nextId + i`), the
transaction commit, and only then the vector-store effects — every event
after the commit is a vector-store event, and none occurs before it.  When
the call succeeds, the returned identifiers are precisely the generated
ids, in input order. -/
theorem insertSnippets_commits_meta_before_vectors
    (snippets : List (SnippetMeta × List ℚ)) (provider : Provider) (nextId : Nat)
    (db : List FallbackRow) (hne : snippets ≠ []) :
    ∃ metaEvs vecEvs,
      (insertSnippets snippets provider nextId db).1
        = DbEvent.txBegin :: metaEvs ++ DbEvent.txCommit :: vecEvs ∧
      metaEvs.length = snippets.length ∧
      (∀ i, i < snippets.length →
        metaEvs.getD i DbEvent.txBegin
          = DbEvent.metaInsert (snippets.getD i default).1 provider
              (snippets.getD i default).2.length (nextId + i)) ∧
      (∀ e ∈ vecEvs, ∃ ve, e = DbEvent.vec ve) ∧
      (∀ ids, (insertSnippets snippets provider nextId db).2 = .ok ids →
        ids = List.range' nextId snippets.length ∧
        ids.length = snippets.length ∧
        ∀ i, i < snippets.length → ids.getD i 0 = nextId + i) := by
  have hzlen : (snippets.zip (List.range' nextId snippets.length)).length
      = snippets.length := by
    simp [List.length_zip, List.length_range']
  refine ⟨(snippets.zip (List.range' nextId snippets.length)).map
      (fun p => DbEvent.metaInsert p.1.1 provider p.1.2.length p.2),
    ((VectorStore.storeVectors
        ((snippets.zip (List.range' nextId snippets.length)).map
          fun p => VecRecord.mk p.2 p.1.2 provider) db).1).map DbEvent.vec,
    ?_, ?_, ?_, ?_, ?_⟩
  · rw [insertSnippets, if_neg hne]
  · simp [hzlen]
  · intro i hi
    have hi1 : i < ((snippets.zip (List.range' nextId snippets.length)).map
        (fun p => DbEvent.metaInsert p.1.1 provider p.1.2.length p.2)).length := by
      simp [hzlen]
      omega
    rw [List.getD, List.get?_eq_getElem?, List.getElem?_eq_getElem hi1, Option.getD_some,
      List.getElem_map, List.getElem_zip, List.getElem_range']
    have hgd : snippets.getD i default = snippets[i] := by
      rw [List.getD, List.get?_eq_getElem?, List.getElem?_eq_getElem hi, Option.getD_some]
    rw [hgd, Nat.one_mul]
  · intro e he
    obtain ⟨ve, -, hve⟩ := List.mem_map.mp he
    exact ⟨ve, hve.symm⟩
  · intro ids hids
    rw [insertSnippets, if_neg hne] at hids
    rcases hst : (VectorStore.storeVectors
        ((snippets.zip (List.range' nextId snippets.length)).map
          fun p => VecRecord.mk p.2 p.1.2 provider) db).2 with e | v
    · rw [Prod.snd] at hids
      dsimp only at hids
      rw [hst] at hids
      cases hids
    · dsimp only at hids
      rw [hst] at hids
      cases hids
      refine ⟨rfl, by rw [List.length_range'], fun i hi => ?_⟩
      have hi2 : i < (List.range' nextId snippets.length).length := by
        rw [List.length_range']
        omega
      dsimp only
      rw [List.getD, List.get?_eq_getElem?, List.getElem?_eq_getElem hi2, Option.getD_some,
        List.getElem_range', Nat.one_mul]

/-- Concrete two-record batch used to witness the `insertSnippets` ordering
theorem. -/
def sampleBatch : List (SnippetMeta × List ℚ) :=
  [(⟨"libA", "p1", "t1", "d1", none, "c1"⟩, [1, 2]),
   (⟨"libA", "p2", "t2", "d2", some "ts", "c2"⟩, [3])]

/-- Witness for C4 on a concrete two-record batch starting at id 5. -/
theorem insertSnippets_commits_meta_before_vectors_witness :
    sampleBatch ≠ [] ∧
    ∃ metaEvs vecEvs,
      (insertSnippets sampleBatch .openai 5 []).1
        = DbEvent.txBegin :: metaEvs ++ DbEvent.txCommit :: vecEvs ∧
      metaEvs.length = sampleBatch.length ∧
      (∀ i, i < sampleBatch.length →
        metaEvs.getD i DbEvent.txBegin
          = DbEvent.metaInsert (sampleBatch.getD i default).1 .openai
              (sampleBatch.getD i default).2.length (5 + i)) ∧
      (∀ e ∈ vecEvs, ∃ ve, e = DbEvent.vec ve) ∧
      (∀ ids, (insertSnippets sampleBatch .openai 5 []).2 = .ok ids →
        ids = List.range' 5 sampleBatch.length ∧
        ids.length = sampleBatch.length ∧
        ∀ i, i < sampleBatch.length → ids.getD i 0 = 5 + i) :=
  ⟨by decide,
    insertSnippets_commits_meta_before_vectors sampleBatch .openai 5 [] (by decide)⟩

/-- The distance ordering used by the fallback scan's sort comparator. -/
instance : IsTotal (Nat × ℚ) (fun a b => a.2 ≤ b.2) :=
  ⟨fun a b => le_total a.2 b.2⟩

/-- Transitivity of the distance ordering. -/
instance : IsTrans (Nat × ℚ) (fun a b => a.2 ≤ b.2) :=
  ⟨fun _ _ _ hab hbc => le_trans hab hbc⟩

/-- C5: whenever the query normalizes, `similaritySearch` succeeds and
returns at most `limit` snippet-id/distance pairs, sorted by non-decreasing
distance, where each returned pair is some candidate row paired with
exactly one minus the similarity the scan computes for it. -/
theorem similaritySearch_sorted_within_limit (s : ℚ → ℚ) (queryEmbedding : List ℚ)
    (provider : Provider) (limit : Nat) (rows : List FallbackRow) (nq : List ℚ)
    (hn : VectorStore.normalizeEmbedding queryEmbedding provider = .ok nq) :
    ∃ res : List (Nat × ℚ),
      VectorStore.similaritySearch s queryEmbedding provider limit rows = .ok res ∧
      res.length ≤ limit ∧
      List.Sorted (fun a b : Nat × ℚ => a.2 ≤ b.2) res ∧
      ∀ p ∈ res, ∃ row ∈ rows,
        p = (row.snippet_id, 1 - similarityOf s nq row.embedding) := by
  refine ⟨VectorStore.fallbackSimilaritySearch s nq limit rows, ?_, ?_, ?_, ?_⟩
  · rw [VectorStore.similaritySearch, hn]
    rfl
  · rw [VectorStore.fallbackSimilaritySearch]
    exact List.length_take_le limit _
  · exact List.Pairwise.sublist (List.take_sublist limit _)
      (List.sorted_insertionSort (fun a b : Nat × ℚ => a.2 ≤ b.2) _)
  · intro p hp
    have hp2 : p ∈ List.insertionSort (fun a b : Nat × ℚ => a.2 ≤ b.2)
        (rows.map fun row => (row.snippet_id, 1 - similarityOf s nq row.embedding)) :=
      (List.take_sublist limit _).subset hp
    have hp3 : p ∈ rows.map fun row =>
        (row.snippet_id, 1 - similarityOf s nq row.embedding) :=
      (List.mem_insertionSort _).mp hp2
    obtain ⟨row, hrow, hpe⟩ := List.mem_map.mp hp3
    exact ⟨row, hrow, hpe.symm⟩

/-- Witness for C5 at a one-row store and a gemini query of width 3072. -/
theorem similaritySearch_sorted_within_limit_witness :
    VectorStore.normalizeEmbedding (List.replicate 3072 (1 : ℚ)) .gemini
      = .ok (List.replicate 3072 (1 : ℚ)) ∧
    ∃ res : List (Nat × ℚ),
      VectorStore.similaritySearch id (List.replicate 3072 (1 : ℚ)) .gemini 5
          [⟨1, [2, 3]⟩] = .ok res ∧
      res.length ≤ 5 ∧
      List.Sorted (fun a b : Nat × ℚ => a.2 ≤ b.2) res ∧
      ∀ p ∈ res, ∃ row ∈ [(⟨1, [2, 3]⟩ : FallbackRow)],
        p = (row.snippet_id,
          1 - similarityOf id (List.replicate 3072 (1 : ℚ)) row.embedding) := by
  have hn : VectorStore.normalizeEmbedding (List.replicate 3072 (1 : ℚ)) .gemini
      = .ok (List.replicate 3072 (1 : ℚ)) := by
    rw [VectorStore.normalizeEmbedding, if_pos ⟨rfl, List.length_replicate 3072 1⟩]
  exact ⟨hn, similaritySearch_sorted_within_limit id (List.replicate 3072 (1 : ℚ))
    .gemini 5 [⟨1, [2, 3]⟩] (List.replicate 3072 (1 : ℚ)) hn⟩

/-- Reads inside the overlapping prefix are unchanged by truncating both
vectors to that prefix. -/
theorem getD_take_of_lt (l : List ℚ) (n i : Nat) (h : i < n) :
    (l.take n).getD i 0 = l.getD i 0 := by
  by_cases hi : i < l.length
  · have h2 : i < (l.take n).length := by
      rw [List.length_take]
      omega
    rw [List.getD, List.get?_eq_getElem?, List.getElem?_eq_getElem h2, Option.getD_some,
      List.getElem_take, List.getD, List.get?_eq_getElem?, List.getElem?_eq_getElem hi,
      Option.getD_some]
  · have h2 : ¬ i < (l.take n).length := by
      rw [List.length_take]
      omega
    rw [List.getD, List.get?_eq_getElem?, List.getElem?_eq_none (Nat.le_of_not_lt h2),
      List.getD, List.get?_eq_getElem?, List.getElem?_eq_none (Nat.le_of_not_lt hi)]

/-- C10: the fallback similarity scan is total over stored vectors of any
width — every candidate row yields exactly one scored pair (the result
size is the lesser of the limit and the row count, with no error path);
the similarity computed for a candidate depends only on the overlapping
prefix of the query and the stored vector (truncating both to
`min |query| |stored|` leaves it unchanged); and when either accumulated
squared magnitude is zero the assigned similarity is exactly 0, i.e. the
pair's distance is exactly 1 — not an error and not an undefined value.
The hypothesis `s 0 = 0` is the single fact used about `Math.sqrt`. -/
theorem fallbackSimilaritySearch_total_overlap_zero (s : ℚ → ℚ) (queryVector : List ℚ)
    (limit : Nat) (rows : List FallbackRow) (h0 : s 0 = 0) :
    (VectorStore.fallbackSimilaritySearch s queryVector limit rows).length
      = min limit rows.length ∧
    (∀ emb : List ℚ,
      similarityOf s queryVector emb
        = similarityOf s (queryVector.take (overlapLen queryVector emb))
            (emb.take (overlapLen queryVector emb))) ∧
    (∀ emb : List ℚ,
      overlapSqQuery queryVector emb = 0 ∨ overlapSqEmb queryVector emb = 0 →
      similarityOf s queryVector emb = 0 ∧
      1 - similarityOf s queryVector emb = 1) := by
  refine ⟨?_, ?_, ?_⟩
  · rw [VectorStore.fallbackSimilaritySearch]
    rw [List.length_take, List.length_insertionSort, List.length_map]
  · intro emb
    have hlen : overlapLen (queryVector.take (overlapLen queryVector emb))
        (emb.take (overlapLen queryVector emb)) = overlapLen queryVector emb := by
      simp only [overlapLen, List.length_take]
      omega
    have hq : ∀ i ∈ List.range (overlapLen queryVector emb),
        (queryVector.take (overlapLen queryVector emb)).getD i 0
          = queryVector.getD i 0 := by
      intro i hi
      exact getD_take_of_lt _ _ _ (List.mem_range.mp hi)
    have he : ∀ i ∈ List.range (overlapLen queryVector emb),
        (emb.take (overlapLen queryVector emb)).getD i 0 = emb.getD i 0 := by
      intro i hi
      exact getD_take_of_lt _ _ _ (List.mem_range.mp hi)
    have hd : overlapDot (queryVector.take (overlapLen queryVector emb))
        (emb.take (overlapLen queryVector emb)) = overlapDot queryVector emb := by
      rw [overlapDot, overlapDot, hlen]
      exact congrArg List.sum (List.map_congr_left fun i hi => by rw [hq i hi, he i hi])
    have hsq : overlapSqQuery (queryVector.take (overlapLen queryVector emb))
        (emb.take (overlapLen queryVector emb)) = overlapSqQuery queryVector emb := by
      rw [overlapSqQuery, overlapSqQuery, hlen]
      exact congrArg List.sum (List.map_congr_left fun i hi => by rw [hq i hi])
    have hse : overlapSqEmb (queryVector.take (overlapLen queryVector emb))
        (emb.take (overlapLen queryVector emb)) = overlapSqEmb queryVector emb := by
      rw [overlapSqEmb, overlapSqEmb, hlen]
      exact congrArg List.sum (List.map_congr_left fun i hi => by rw [he i hi])
    rw [similarityOf, similarityOf, hd, hsq, hse]
  · intro emb hz
    rw [similarityOf]
    rcases hz with hz | hz
    · rw [hz, h0, zero_mul, if_neg (lt_irrefl 0)]
      norm_num
    · rw [hz, h0, mul_zero, if_neg (lt_irrefl 0)]
      norm_num

/-- Witness for C10 on a store holding vectors of widths 1 and 5 against a
width-3 query. -/
theorem fallbackSimilaritySearch_total_overlap_zero_witness :
    (id (0 : ℚ) = 0) ∧
    ((VectorStore.fallbackSimilaritySearch id [1, 2, 3] 9
        [⟨1, [4]⟩, ⟨2, [0, 0, 0, 0, 0]⟩]).length
      = min 9 [(⟨1, [4]⟩ : FallbackRow), ⟨2, [0, 0, 0, 0, 0]⟩].length ∧
    (∀ emb : List ℚ,
      similarityOf id [1, 2, 3] emb
        = similarityOf id (List.take (overlapLen [1, 2, 3] emb) [1, 2, 3])
            (emb.take (overlapLen [1, 2, 3] emb))) ∧
    (∀ emb : List ℚ,
      overlapSqQuery [1, 2, 3] emb = 0 ∨ overlapSqEmb [1, 2, 3] emb = 0 →
      similarityOf id [1, 2, 3] emb = 0 ∧
      1 - similarityOf id [1, 2, 3] emb = 1)) :=
  ⟨rfl, fallbackSimilaritySearch_total_overlap_zero id [1, 2, 3] 9
    [⟨1, [4]⟩, ⟨2, [0, 0, 0, 0, 0]⟩] rfl⟩
